/-
Verification of the Dyna-Warehouse core against its design specification.

Shallow embedding of the repository's three core modules:
  * src/warehouse/models.py          (data model)
  * src/warehouse/data_loader.py     (catalog parsing, reservoir sampling, statistics)
  * src/warehouse/pricing_engine.py  (reward function, candidate search, rollout)

Modelling conventions:
  * Python floats are modelled as exact rationals (ℚ).  The one operation that
    has no exact rational counterpart — Python's float `**` with a fractional
    exponent (used in the demand model and in `** 0.5` for the standard
    deviation) — is abstracted as an explicit function parameter `qpow`
    (resp. `sq`); every theorem below either holds for all such functions or
    instantiates them concretely.
  * Python `round(x, 2)` / `round(x, 4)` are modelled as exact rounding to a
    multiple of 1/100 (resp. 1/10000); no statement below depends on the
    behaviour at exact ties.
  * The engine-owned `random.Random(42)` generator is modelled as a stream of
    unit-interval rationals that is a deterministic function of the seed,
    consumed one draw per stdlib call, exactly in the call order of the source.
  * `datetime.now()` timestamps are modelled as an ambient clock stream passed
    to the simulation; two different runs see two different clock streams.
  * Python strings are modelled as `List Char`; `str.find`, slicing, `strip`,
    `lower` and `[:n]` are given Python-faithful definitions below.
-/
import Mathlib

namespace Warehouse

/-- Models Python `round(x, 2)`: round to the nearest multiple of 1/100. -/
def pyRound2 (x : ℚ) : ℚ := ((round (x * 100) : ℤ) : ℚ) / 100

/-- Models Python `round(x, 4)`: round to the nearest multiple of 1/10000. -/
def pyRound4 (x : ℚ) : ℚ := ((round (x * 10000) : ℤ) : ℚ) / 10000

/-- Models Python `max(xs)` on a non-empty list (0 on the unreachable empty case). -/
def pyMax : List ℚ → ℚ
  | [] => 0
  | x :: xs => xs.foldl max x

/-- Models Python `min(xs)` on a non-empty list (0 on the unreachable empty case). -/
def pyMin : List ℚ → ℚ
  | [] => 0
  | x :: xs => xs.foldl min x

/-! ## Data model (src/warehouse/models.py) -/

/-- `AppSettings` from models.py with its default field values. -/
structure AppSettings where
  alpha : ℚ := 0.40
  beta : ℚ := 0.25
  gamma : ℚ := 0.20
  delta : ℚ := 0.15
  default_steps : ℕ := 30
  price_adjustment_range : ℚ := 0.15
  max_catalog_rows : ℕ := 500
  theme : String := "warehouse_dark"
deriving DecidableEq

/-- `Product` from models.py. -/
structure Product where
  sample_id : ℤ
  name : String
  price : ℚ
  category : String
  unit : String := ""
  value : String := ""
  image_link : String := ""
  bullet_points : String := ""
  description : String := ""
deriving DecidableEq

/-- `MarketState` from models.py.  `timestamp` is filled by `__post_init__`
with `datetime.now()` when left empty; the simulation below passes the
ambient clock value explicitly. -/
structure MarketState where
  product_id : ℤ
  current_price : ℚ
  competitor_price : ℚ
  inventory_level : ℤ
  user_engagement : ℚ
  seasonal_factor : ℚ
  demand_elasticity : ℚ
  timestamp : String := ""
deriving DecidableEq

/-- `PricingAction` from models.py.  `timestamp` is filled by
`__post_init__` with `datetime.now()` when left empty. -/
structure PricingAction where
  product_id : ℤ
  product_name : String
  old_price : ℚ
  new_price : ℚ
  reward : ℚ
  profit_component : ℚ
  competitive_component : ℚ
  stability_component : ℚ
  inventory_component : ℚ
  step : ℕ := 0
  timestamp : String := ""
deriving DecidableEq

/-- `SimulationResult` from models.py. -/
structure SimulationResult where
  product_id : ℤ
  product_name : String
  actions : List PricingAction := []
  total_reward : ℚ := 0
  avg_reward : ℚ := 0
  final_price : ℚ := 0
  initial_price : ℚ := 0
  max_price : ℚ := 0
  min_price : ℚ := 0
  steps : ℕ := 0
deriving DecidableEq

/-! ## Python string operations (used by data_loader.py) -/

/-- True when `needle` occurs at the very beginning of `hay`. -/
def matchStart : List Char → List Char → Bool
  | [], _ => true
  | _ :: _, [] => false
  | n :: ns, h :: hs => n == h && matchStart ns hs

/-- Models Python `needle in hay` on strings (substring containment). -/
def containsSub : List Char → List Char → Bool
  | [], needle => needle.isEmpty
  | h :: t, needle => matchStart needle (h :: t) || containsSub t needle

/-- Search worker for `pyFind`: absolute position of the first match at or
after `pos`, scanning the remaining characters. -/
def pyFindAux (needle : List Char) : List Char → ℕ → Option ℕ
  | [], _ => none
  | c :: rest, pos =>
    if matchStart needle (c :: rest) then some pos else pyFindAux needle rest (pos + 1)

/-- Models Python `hay.find(needle, start)` for a non-empty `needle`:
the lowest index ≥ `start` where `needle` occurs, or -1. -/
def pyFind (hay needle : List Char) (start : ℕ) : ℤ :=
  match pyFindAux needle (hay.drop start) start with
  | some i => (i : ℤ)
  | none => -1

/-- Models Python `s.lower()` (ASCII case folding suffices here). -/
def lowerStr (s : List Char) : List Char := s.map Char.toLower

/-- Models Python `s.strip()`: drop leading and trailing whitespace. -/
def pyStrip (l : List Char) : List Char :=
  ((l.dropWhile Char.isWhitespace).reverse.dropWhile Char.isWhitespace).reverse

/-- Models the Python slice `l[a:b]` for the non-negative indices that occur
in `_fast_parse_catalog`. -/
def pySlice (l : List Char) (a b : ℤ) : List Char :=
  (l.take b.toNat).drop a.toNat

/-- Models `s.replace("\n", " ")` (the pattern is a single character). -/
def pyReplaceNl (l : List Char) : List Char :=
  l.map (fun c => if c = '\n' then ' ' else c)

/-! ## Catalog field extraction (data_loader.py, `_fast_parse_catalog`) -/

/-- `_fast_parse_catalog(raw)` from data_loader.py: extract
`(name, bullets, desc)` with case-insensitive marker search, colon-anchored
slicing, stripping, and truncation to 120/200/300 characters; an empty
extracted name falls back to the first 80 raw characters, stripped, with
newlines replaced by spaces. -/
def fast_parse_catalog (raw : List Char) : List Char × List Char × List Char :=
  if raw = [] then ([], [], []) else
  let low := lowerStr raw
  let ni := pyFind low ("item_name".data) 0
  let bi := pyFind low ("bullet_point".data) 0
  let di := pyFind low ("product_description".data) 0
  let name0 :=
    if ni ≥ 0 then
      let start := pyFind raw [':'] ni.toNat + 1
      let stop := if bi > start then bi else if di > start then di else (raw.length : ℤ)
      (pyStrip (pySlice raw start stop)).take 120
    else []
  let bullets :=
    if bi ≥ 0 then
      let start := pyFind raw [':'] bi.toNat + 1
      let stop := if di > start then di else (raw.length : ℤ)
      (pyStrip (pySlice raw start stop)).take 200
    else []
  let desc :=
    if di ≥ 0 then
      let start := pyFind raw [':'] di.toNat + 1
      (pyStrip (raw.drop start.toNat)).take 300
    else []
  let name := if name0 = [] then pyReplaceNl (pyStrip (raw.take 80)) else name0
  (name, bullets, desc)

/-- The name-extraction rule exactly as claim C3 words it: the text after the
colon following the `item_name` marker, up to the start of the NEXT located
marker — whichever of the `bullet_point` / `product_description` markers that
were found starts next after the colon — or to end of string, stripped and
truncated to 120 characters; if no `item_name` marker is found, the first 80
characters of the raw blob with newlines replaced by spaces. -/
def claimName (raw : List Char) : List Char :=
  let low := lowerStr raw
  let ni := pyFind low ("item_name".data) 0
  if ni ≥ 0 then
    let start := pyFind raw [':'] ni.toNat + 1
    let bi := pyFind low ("bullet_point".data) 0
    let di := pyFind low ("product_description".data) 0
    let nextMarkers := (if start < bi then [bi] else []) ++ (if start < di then [di] else [])
    let stop := nextMarkers.foldr min (raw.length : ℤ)
    (pyStrip (pySlice raw start stop)).take 120
  else pyReplaceNl (raw.take 80)

/-- The name-extraction rule as amended: identical to claim C3 except that
(a) when both later markers are present the `bullet_point` position is
preferred even if the `product_description` marker starts earlier, (b) the
80-character fallback is also stripped, and (c) the fallback applies whenever
the extracted name is empty (not only when the marker is missing). -/
def amendedName (raw : List Char) : List Char :=
  if raw = [] then [] else
  let low := lowerStr raw
  let ni := pyFind low ("item_name".data) 0
  let bi := pyFind low ("bullet_point".data) 0
  let di := pyFind low ("product_description".data) 0
  let extracted :=
    if ni ≥ 0 then
      let start := pyFind raw [':'] ni.toNat + 1
      let stop := if bi > start then bi else if di > start then di else (raw.length : ℤ)
      (pyStrip (pySlice raw start stop)).take 120
    else []
  if extracted = [] then pyReplaceNl (pyStrip (raw.take 80)) else extracted

/-! ## Category classifier (data_loader.py, `_CAT_RULES` / `_classify`) -/

/-- `_CAT_RULES` from data_loader.py, in declaration order. -/
def CAT_RULES : List (String × List String) :=
  [("Coffee & Tea", ["coffee", "tea", "espresso", "latte", "brew", "chai", "matcha"]),
   ("Beverages", ["water", "juice", "soda", "drink", "beverage", "cola", "lemonade"]),
   ("Snacks & Chips", ["chip", "snack", "pretzel", "popcorn", "cracker", "cookie", "nuts"]),
   ("Candy & Sweets", ["candy", "chocolate", "gum", "mint", "sweet", "gummy", "caramel"]),
   ("Spices & Seasoning", ["spice", "seasoning", "pepper", "salt", "cinnamon", "cumin", "paprika"]),
   ("Health & Wellness", ["vitamin", "supplement", "protein", "organic", "health", "probiotic"]),
   ("Dairy & Refrigerated", ["milk", "cheese", "yogurt", "butter", "cream", "dairy", "egg"]),
   ("Canned & Packaged", ["canned", "soup", "sauce", "paste", "jar", "broth", "stock"]),
   ("Baking & Cooking", ["flour", "sugar", "baking", "yeast", "vanilla", "cocoa", "mix"])]

/-- The nested loops of `_classify`: first rule with a matching keyword wins. -/
def classifyAux : List (String × List String) → List Char → String
  | [], _ => "Other"
  | (cat, kws) :: rest, nl =>
    if kws.any (fun kw => containsSub nl kw.data) then cat else classifyAux rest nl

/-- `_classify(name_lower)` from data_loader.py. -/
def classify (nl : List Char) : String := classifyAux CAT_RULES nl

/-- The classifier contract as the spec words it: the label of the first rule
(in declaration order) containing any keyword occurring as a substring of the
lower-cased name, and `"Other"` when no rule matches. -/
def specClassify (nl : List Char) : String :=
  ((CAT_RULES.find? (fun r => r.2.any (fun kw => containsSub nl kw.data))).map (·.1)).getD "Other"

/-! ## Reservoir sampling (data_loader.py, `load_and_cache`, ingestion loop) -/

/-- `MAX_PRODUCTS` from data_loader.py. -/
def MAX_PRODUCTS : ℕ := 10000

/-- One iteration of the ingestion loop for the `i`-th row (0-indexed), with
`j` the value drawn by `random.randint(0, i)` (only consulted on full
reservoirs, exactly as in the source). -/
def reservoirUpdate (K : ℕ) (res : List Product) (x : Product) (j : ℕ) : List Product :=
  if res.length < K then res ++ [x]
  else if j < K then res.set j x else res

/-- Ingestion loop worker: `i` is the running row index (and row count so
far), `rand i` models the `random.randint(0, i)` draw for row `i`. -/
def runReservoirAux (K : ℕ) (rand : ℕ → ℕ) : List Product → ℕ → List Product → List Product × ℕ
  | [], i, res => (res, i)
  | x :: xs, i, res => runReservoirAux K rand xs (i + 1) (reservoirUpdate K res x (rand i))

/-- The reservoir-sampling pass of `load_and_cache`: returns the sampled
records and the total row count. -/
def runReservoir (K : ℕ) (rows : List Product) (rand : ℕ → ℕ) : List Product × ℕ :=
  runReservoirAux K rand rows 0 []

/-! ## Statistics aggregator (data_loader.py, `load_and_cache`, stats pass) -/

/-- Python `d[c] = d.get(c, 0) + 1` on an insertion-ordered dict. -/
def bumpCount : List (String × ℕ) → String → List (String × ℕ)
  | [], c => [(c, 1)]
  | (k, v) :: rest, c =>
    if k = c then (k, v + 1) :: rest else (k, v) :: bumpCount rest c

/-- Python `d[c] = d.get(c, 0) + x` on an insertion-ordered dict. -/
def bumpAdd : List (String × ℚ) → String → ℚ → List (String × ℚ)
  | [], c, x => [(c, x)]
  | (k, v) :: rest, c, x =>
    if k = c then (k, v + x) :: rest else (k, v) :: bumpAdd rest c x

/-- Python `if c not in d or x < d[c]: d[c] = x` on an insertion-ordered dict. -/
def updMin : List (String × ℚ) → String → ℚ → List (String × ℚ)
  | [], c, x => [(c, x)]
  | (k, v) :: rest, c, x =>
    if k = c then (k, if x < v then x else v) :: rest else (k, v) :: updMin rest c x

/-- Python `if c not in d or x > d[c]: d[c] = x` on an insertion-ordered dict. -/
def updMax : List (String × ℚ) → String → ℚ → List (String × ℚ)
  | [], c, x => [(c, x)]
  | (k, v) :: rest, c, x =>
    if k = c then (k, if v < x then x else v) :: rest else (k, v) :: updMax rest c x

/-- Python `d.get(k, dflt)` on an insertion-ordered dict. -/
def dictGetD (m : List (String × ℚ)) (k : String) (dflt : ℚ) : ℚ :=
  (((m.find? (fun e => e.1 == k)).map (·.2)).getD dflt)

/-- Accumulator of the single stats pass over the reservoir. -/
structure StatsAcc where
  cat_counts : List (String × ℕ) := []
  cat_sums : List (String × ℚ) := []
  cat_cnts : List (String × ℕ) := []
  cat_mins : List (String × ℚ) := []
  cat_maxs : List (String × ℚ) := []
  prices : List ℚ := []

/-- The body of the `for p in reservoir` stats loop in `load_and_cache`. -/
def statsStep (acc : StatsAcc) (p : Product) : StatsAcc :=
  let acc := { acc with cat_counts := bumpCount acc.cat_counts p.category }
  if 0 < p.price then
    { acc with
      prices := acc.prices ++ [p.price]
      cat_sums := bumpAdd acc.cat_sums p.category p.price
      cat_cnts := bumpCount acc.cat_cnts p.category
      cat_mins := updMin acc.cat_mins p.category p.price
      cat_maxs := updMax acc.cat_maxs p.category p.price }
  else acc

/-- `PrecomputedData` from data_loader.py (dicts as insertion-ordered
association lists). -/
structure PrecomputedData where
  products : List Product := []
  category_counts : List (String × ℕ) := []
  category_avg_prices : List (String × ℚ) := []
  category_min_prices : List (String × ℚ) := []
  category_max_prices : List (String × ℚ) := []
  total_products : ℕ := 0
  total_in_csv : ℕ := 0
  priced_products : ℕ := 0
  avg_price : ℚ := 0
  median_price : ℚ := 0
  min_price : ℚ := 0
  max_price : ℚ := 0
  std_price : ℚ := 0
  zero_price_count : ℕ := 0

/-- The stats pass of `load_and_cache` over a sampled reservoir.  `sq` models
the float operation `** 0.5`.  `sorted(..., key=count, reverse=True)` is a
stable descending sort: insertion on `b.2 ≤ a.2` places an earlier element
before all later elements with the same count, preserving first-seen order
on ties exactly as Python's stable sort does. -/
def computeStats (sq : ℚ → ℚ) (reservoir : List Product) (totalRows : ℕ) : PrecomputedData :=
  let acc := reservoir.foldl statsStep {}
  let sorted := List.insertionSort (· ≤ ·) acc.prices
  let n : ℚ := (sorted.length : ℚ)
  let priced := acc.prices.length ≠ 0
  let avg := sorted.sum / n
  { products := reservoir
    total_products := reservoir.length
    total_in_csv := totalRows
    category_counts := List.insertionSort (fun a b => b.2 ≤ a.2) acc.cat_counts
    category_avg_prices :=
      acc.cat_cnts.map (fun e => (e.1, dictGetD acc.cat_sums e.1 0 / (e.2 : ℚ)))
    category_min_prices := acc.cat_mins
    category_max_prices := acc.cat_maxs
    priced_products := acc.prices.length
    zero_price_count := reservoir.length - acc.prices.length
    avg_price := if priced then avg else 0
    median_price := if priced then sorted.getD (sorted.length / 2) 0 else 0
    min_price := if priced then sorted.getD 0 0 else 0
    max_price := if priced then sorted.getD (sorted.length - 1) 0 else 0
    std_price := if priced then sq ((sorted.map (fun x => (x - avg) ^ 2)).sum / n) else 0 }

/-- `load_and_cache` on a cache miss: reservoir-sample the row stream with
capacity `MAX_PRODUCTS`, then precompute all statistics in a single pass.
Rows are modelled post-parse (each CSV row yields exactly one record). -/
def load_and_cache (sq : ℚ → ℚ) (rows : List Product) (rand : ℕ → ℕ) : PrecomputedData :=
  let sampled := runReservoir MAX_PRODUCTS rows rand
  computeStats sq sampled.1 sampled.2

/-- Positive prices of a record list, as the spec describes them. -/
def posPrices (l : List Product) : List ℚ := (l.map (·.price)).filter (fun x => 0 < x)

/-- Spec §4.4 median: the `len // 2` element of the sorted positive-price
list (upper median for even lengths). -/
def upperMedian (l : List ℚ) : ℚ :=
  (List.insertionSort (· ≤ ·) l).getD (l.length / 2) 0

/-- Spec §4.4 population variance: `mean((x - mean)²)`. -/
def popVariance (l : List ℚ) : ℚ :=
  ((l.map (fun x => (x - l.sum / (l.length : ℚ)) ^ 2)).sum) / (l.length : ℚ)

/-! ## Pricing engine (src/warehouse/pricing_engine.py) -/

/-- `_estimate_cost`: product cost as 60% of list price. -/
def estimate_cost (price : ℚ) : ℚ := price * 0.60

/-- `_demand_function`: elasticity demand model.  `qpow` models the Python
float power `price_ratio ** elasticity`. -/
def demand_function (qpow : ℚ → ℚ → ℚ) (price base_price elasticity seasonal engagement : ℚ) : ℚ :=
  if base_price ≤ 0 ∨ price ≤ 0 then 0
  else max 0 (100 * qpow (price / base_price) elasticity * seasonal * engagement)

/-- The five-component return value of `compute_reward`. -/
structure RewardOut where
  total : ℚ
  r_profit : ℚ
  p_competitive : ℚ
  p_stability : ℚ
  p_inventory : ℚ
deriving DecidableEq

/-- `compute_reward(old_price, new_price, market)` from pricing_engine.py. -/
def compute_reward (qpow : ℚ → ℚ → ℚ) (s : AppSettings)
    (old_price new_price : ℚ) (market : MarketState) : RewardOut :=
  let cost := estimate_cost market.current_price
  let demand := demand_function qpow new_price market.current_price
    market.demand_elasticity market.seasonal_factor market.user_engagement
  let profit := (new_price - cost) * demand
  let r_profit := profit / max 1 (market.current_price * 100)
  let comp_diff := max 0 (new_price - market.competitor_price)
  let p_competitive := (comp_diff / max 1 market.competitor_price) ^ 2
  let price_change := |new_price - old_price| / max 1 old_price
  let p_stability := price_change ^ 2
  let inv := market.inventory_level
  let p_inventory : ℚ :=
    if inv < 20 then ((20 - (inv : ℚ)) / 20) ^ 2
    else if 400 < inv then (((inv : ℚ) - 400) / 400) ^ 2
    else 0
  { total := s.alpha * r_profit - s.beta * p_competitive
      - s.gamma * p_stability - s.delta * p_inventory
    r_profit := r_profit
    p_competitive := p_competitive
    p_stability := p_stability
    p_inventory := p_inventory }

/-- The fixed ten-candidate list of `suggest_price`, in source order. -/
def candidates (s : AppSettings) (m : MarketState) : List ℚ :=
  let base := m.current_price
  let adj := s.price_adjustment_range
  [base,
   base * (1 - adj * 0.25),
   base * (1 - adj * 0.50),
   base * (1 - adj * 0.75),
   base * (1 + adj * 0.25),
   base * (1 + adj * 0.50),
   base * (1 + adj * 0.75),
   m.competitor_price,
   m.competitor_price * 0.98,
   m.competitor_price * 1.02]

/-- The per-candidate preprocessing in the search loop:
`cp = round(max(0.01, cp), 2)`. -/
def procCandidate (c : ℚ) : ℚ := pyRound2 (max 0.01 c)

/-- One iteration of the search loop of `suggest_price`.  The accumulator is
`(best_price, best_reward)` with `none` standing for the initial
`float("-inf")`, which every finite reward strictly exceeds. -/
def bestStep (f : ℚ → ℚ) (acc : ℚ × Option ℚ) (cp : ℚ) : ℚ × Option ℚ :=
  match acc.2 with
  | none => (cp, some (f cp))
  | some br => if br < f cp then (cp, some (f cp)) else acc

/-- `suggest_price(product, market)` from pricing_engine.py: gradient-free
search over the ten candidates (the loop-local rebinding `cp = round(...)`
is the map by `procCandidate`), scoring each with `compute_reward(base, cp,
market)` and keeping the first strict improvement. -/
def suggest_price (qpow : ℚ → ℚ → ℚ) (s : AppSettings) (_product : Product)
    (m : MarketState) : ℚ :=
  let base := m.current_price
  let f : ℚ → ℚ := fun cp => (compute_reward qpow s base cp m).total
  let best := ((candidates s m).map procCandidate).foldl (bestStep f) (base, none)
  pyRound2 best.1

/-- Spec §4.7 selection rule, stated directly: the FIRST candidate (in the
fixed processed candidate list) whose total reward is greater than or equal
to every candidate's total reward. -/
def firstBest (f : ℚ → ℚ) (l : List ℚ) (dflt : ℚ) : ℚ :=
  (l.find? (fun c => l.all (fun c2 => decide (f c2 ≤ f c)))).getD dflt

/-- `suggest_price` as the spec words it: the strictly-highest-reward
candidate, ties broken by first position in the fixed candidate list. -/
def spec_suggest_price (qpow : ℚ → ℚ → ℚ) (s : AppSettings) (_product : Product)
    (m : MarketState) : ℚ :=
  let base := m.current_price
  let f : ℚ → ℚ := fun cp => (compute_reward qpow s base cp m).total
  pyRound2 (firstBest f ((candidates s m).map procCandidate) base)

/-- Recursive first-strict-improvement selection; proof-side device used to
relate the search loop of `suggest_price` to the spec's first-maximum rule. -/
def firstMaxRec (f : ℚ → ℚ) (b : ℚ) : List ℚ → ℚ
  | [] => b
  | x :: xs => if f b < f x then firstMaxRec f x xs else firstMaxRec f b xs

/-! ## Engine state, market evolution and rollout -/

/-- The pricing engine: settings plus the single engine-owned pseudo-random
generator (`random.Random(42)`), modelled as a unit-interval draw stream and
a consumption index.  `qpow` models the float power used by the demand
model. -/
structure Engine where
  settings : AppSettings
  qpow : ℚ → ℚ → ℚ
  draws : ℕ → ℚ
  idx : ℕ

/-- A concrete deterministic stream standing in for the stdlib Mersenne
Twister: all that the theorems use is that it is a function of the seed. -/
def lcgNext (x : ℕ) : ℕ := (6364136223846793005 * x + 1442695040888963407) % (2 ^ 64)

/-- Iterated generator states for `seedDraws`. -/
def lcgIter (seed : ℕ) : ℕ → ℕ
  | 0 => lcgNext seed
  | n + 1 => lcgNext (lcgIter seed n)

/-- The seeded draw stream of `random.Random(seed)` in the model: the `n`-th
uniform draw in `[0, 1)`. -/
def seedDraws (seed : ℕ) : ℕ → ℚ :=
  fun n => ((lcgIter seed n % 2 ^ 32 : ℕ) : ℚ) / (2 ^ 32 : ℚ)

/-- `DynamicPricingEngine.__init__`: store the settings and seed the single
engine-owned generator with the fixed seed 42. -/
def mkEngine (settings : AppSettings) (qpow : ℚ → ℚ → ℚ) : Engine :=
  { settings := settings, qpow := qpow, draws := seedDraws 42, idx := 0 }

/-- `random.Random.randint(a, b)` fed by one uniform draw `u ∈ [0, 1)`. -/
def pyRandint (u : ℚ) (a b : ℤ) : ℤ := a + ⌊u * ((b - a + 1 : ℤ) : ℚ)⌋

/-- `random.Random.uniform(a, b)` fed by one uniform draw `u ∈ [0, 1)`. -/
def pyUniform (u : ℚ) (a b : ℚ) : ℚ := a + (b - a) * u

/-- `simulate_step(product, market, old_price)` from pricing_engine.py.
`tAct` and `tMkt` are the ambient `datetime.now()` values observed by the
`PricingAction` and the new `MarketState` respectively.  The four stdlib
randomness calls consume four draws in source order. -/
def simulate_step (e : Engine) (p : Product) (m : MarketState) (old_price : ℚ)
    (tAct tMkt : String) : PricingAction × MarketState × Engine :=
  let new_price := suggest_price e.qpow e.settings p m
  let r := compute_reward e.qpow e.settings old_price new_price m
  let action : PricingAction :=
    { product_id := p.sample_id
      product_name := p.name.take 60
      old_price := pyRound2 old_price
      new_price := pyRound2 new_price
      reward := pyRound4 r.total
      profit_component := pyRound4 r.r_profit
      competitive_component := pyRound4 r.p_competitive
      stability_component := pyRound4 r.p_stability
      inventory_component := pyRound4 r.p_inventory
      step := 0
      timestamp := tAct }
  let inv_change := pyRandint (e.draws e.idx) (-30) 30
  let new_inv := max 0 (m.inventory_level + inv_change)
  let engagement_drift := pyUniform (e.draws (e.idx + 1)) (-0.05) 0.05
  let new_engagement := max 0.05 (min 1 (m.user_engagement + engagement_drift))
  let seasonal_drift := pyUniform (e.draws (e.idx + 2)) (-0.1) 0.1
  let new_seasonal := max 0.3 (min 2.5 (m.seasonal_factor + seasonal_drift))
  let comp_drift := pyUniform (e.draws (e.idx + 3)) (-0.03) 0.03
  let new_comp := pyRound2 (max 0.01 (m.competitor_price * (1 + comp_drift)))
  let new_market : MarketState :=
    { product_id := p.sample_id
      current_price := new_price
      competitor_price := new_comp
      inventory_level := new_inv
      user_engagement := pyRound2 new_engagement
      seasonal_factor := pyRound2 new_seasonal
      demand_elasticity := m.demand_elasticity
      timestamp := tMkt }
  (action, new_market, { e with idx := e.idx + 4 })

/-- State carried by the `for step in range(steps)` loop of `run_simulation`. -/
structure LoopState where
  actions : List PricingAction
  current_price : ℚ
  market : MarketState
  engine : Engine

/-- The step loop of `run_simulation`: `si` is the 0-based step counter,
`ci` the ambient-clock position (two `datetime.now()` calls per step). -/
def runLoop (p : Product) (clock : ℕ → String) :
    ℕ → Engine → MarketState → ℚ → ℕ → ℕ → LoopState
  | 0, e, m, price, _si, _ci =>
    { actions := [], current_price := price, market := m, engine := e }
  | n + 1, e, m, price, si, ci =>
    let s := simulate_step e p m price (clock ci) (clock (ci + 1))
    let a := { s.1 with step := si + 1 }
    let rest := runLoop p clock n s.2.2 s.2.1 a.new_price (si + 1) (ci + 2)
    { rest with actions := a :: rest.actions }

/-- The Python default-substitution `steps = steps or self.settings.default_steps`:
`None` — and, `0` being falsy, also `0` — falls back to the settings default. -/
def resolveSteps : Option ℕ → ℕ → ℕ
  | none, dflt => dflt
  | some n, dflt => if n = 0 then dflt else n

/-- `run_simulation(product, market, steps)` from pricing_engine.py. -/
def run_simulation (e : Engine) (clock : ℕ → String) (p : Product)
    (m : MarketState) (steps? : Option ℕ) : SimulationResult × Engine :=
  let steps := resolveSteps steps? e.settings.default_steps
  let initial := m.current_price
  let fin := runLoop p clock steps e m initial 0 0
  let actions := fin.actions
  let prices := initial :: actions.map (·.new_price)
  let total := (actions.map (·.reward)).sum
  let avg := if actions.isEmpty then 0 else total / (actions.length : ℚ)
  ({ product_id := p.sample_id
     product_name := p.name.take 60
     actions := actions
     total_reward := pyRound4 total
     avg_reward := pyRound4 avg
     final_price := pyRound2 fin.current_price
     initial_price := pyRound2 initial
     max_price := pyRound2 (pyMax prices)
     min_price := pyRound2 (pyMin prices)
     steps := steps }, fin.engine)

/-- Timestamp erasure on an action (everything the engine computes,
minus the wall-clock field). -/
def stripAction (a : PricingAction) : PricingAction := { a with timestamp := "" }

/-- Timestamp erasure on a full simulation result. -/
def stripResult (r : SimulationResult) : SimulationResult :=
  { r with actions := r.actions.map stripAction }

/-- An ambient wall clock as seen by a first run. -/
def clockA : ℕ → String := fun _ => "2024-01-01T00:00:00"

/-- An ambient wall clock as seen by a second, later run. -/
def clockB : ℕ → String := fun _ => "2024-01-02T00:00:00"

/-! ## Concrete instantiations used by witnesses and counterexamples -/

/-- A concrete stand-in for the float power in witness evaluations. -/
def qpow0 : ℚ → ℚ → ℚ := fun _ _ => 1

/-- A concrete stand-in for `** 0.5` in witness evaluations. -/
def sq0 : ℚ → ℚ := fun _ => 0

/-- A concrete row-draw stream for witness evaluations. -/
def rand0 : ℕ → ℕ := fun _ => 0

/-- A concrete product for witness evaluations. -/
def prodC : Product := { sample_id := 1, name := "Widget", price := 10, category := "Other" }

/-- A second concrete product for witness evaluations. -/
def prodD : Product := { sample_id := 2, name := "Gadget", price := 25, category := "Other" }

/-- A concrete market state for witness evaluations. -/
def mktC : MarketState :=
  { product_id := 1, current_price := 10, competitor_price := 11, inventory_level := 100,
    user_engagement := 0.5, seasonal_factor := 1, demand_elasticity := -1, timestamp := "t0" }

/-- The spec's end-to-end three-row scenario, used as witness input. -/
def rowsC : List Product :=
  [{ sample_id := 0, name := "Green Tea", price := 10, category := "Coffee & Tea" },
   { sample_id := 1, name := "Mystery Box", price := 0, category := "Other" },
   { sample_id := 2, name := "Milk", price := 25, category := "Dairy & Refrigerated" }]

/-! ## Theorems -/

/-- Helper: `classifyAux` returns the label of the first matching rule. -/
theorem classifyAux_eq_find (rules : List (String × List String)) (nl : List Char) :
    classifyAux rules nl
      = ((rules.find? (fun r => r.2.any (fun kw => containsSub nl kw.data))).map (·.1)).getD "Other" := by
  induction rules with
  | nil => rfl
  | cons r rest ih =>
    obtain ⟨cat, kws⟩ := r
    by_cases h : (kws.any (fun kw => containsSub nl kw.data)) = true
    · simp [classifyAux, List.find?, h]
    · simp only [Bool.not_eq_true] at h
      simp [classifyAux, List.find?, h, ih]

/-- Claim C8: the category classifier is pure and deterministic; for every
name it returns the label of the first rule in declaration order having a
keyword occurring as a substring of the lower-cased name, `"Other"` when no
rule matches; and `classify("Organic Chai Tea Bags".lower())` is
`"Coffee & Tea"` even though `"organic"` also matches the later
Health & Wellness rule. -/
theorem C8_classifier_first_match :
    (∀ nl : List Char, classify nl = specClassify nl)
      ∧ classify (lowerStr ("Organic Chai Tea Bags".data)) = "Coffee & Tea"
      ∧ containsSub (lowerStr ("Organic Chai Tea Bags".data)) ("organic".data) = true := by
  refine ⟨fun nl => classifyAux_eq_find CAT_RULES nl, by decide, by decide⟩

/-- Claim C3, counterexample: on a blob where the `product_description`
marker starts BEFORE the `bullet_point` marker, the code does not cut the
name at the next located marker — it prefers the `bullet_point` position —
so the extracted name is `"A product_description:B"` where the claim
requires `"A"`. -/
theorem C3_counterexample :
    (fast_parse_catalog ("item_name:A product_description:B bullet_point:C".data)).1
        = "A product_description:B".data
      ∧ claimName ("item_name:A product_description:B bullet_point:C".data) = "A".data
      ∧ (fast_parse_catalog ("item_name:A product_description:B bullet_point:C".data)).1
          ≠ claimName ("item_name:A product_description:B bullet_point:C".data) := by
  refine ⟨by decide, by decide, by decide⟩

/-- Claim C3 as amended: the name is the text after the colon following the
`item_name` marker, up to the `bullet_point` marker if it was found after
the colon, otherwise the `product_description` marker if found after the
colon, otherwise end of string — the `bullet_point` marker is preferred even
when the `product_description` marker starts earlier — stripped and
truncated to 120 characters; if no `item_name` marker is found, or the
extracted name is empty, the name falls back to the first 80 characters of
the raw blob, stripped, with embedded newlines replaced by spaces. -/
theorem C3_amended_name_extraction (raw : List Char) :
    (fast_parse_catalog raw).1 = amendedName raw := by
  by_cases h : raw = []
  · subst h; rfl
  · simp only [fast_parse_catalog, amendedName, if_neg h]

/-- Helper: the step loop pushes exactly one action per step. -/
theorem runLoop_length (p : Product) (clock : ℕ → String) :
    ∀ (n : ℕ) (e : Engine) (m : MarketState) (price : ℚ) (si ci : ℕ),
      (runLoop p clock n e m price si ci).actions.length = n := by
  intro n
  induction n with
  | zero => intro e m price si ci; rfl
  | succ k ih => intro e m price si ci; simp [runLoop, ih]

/-- Claim C1 (evaluated at the failing input): calling `run_simulation` with
`steps = 0` under the default settings does NOT return an empty action list.
Because `steps or self.settings.default_steps` treats the integer `0` as
falsy, the run substitutes `default_steps = 30` and produces 30 actions with
`steps = 30` — contradicting the claimed zero-step behaviour. -/
theorem C1_steps_zero_runs_default_thirty (qpow : ℚ → ℚ → ℚ) (clock : ℕ → String)
    (p : Product) (m : MarketState) :
    (run_simulation (mkEngine {} qpow) clock p m (some 0)).1.actions.length = 30
      ∧ (run_simulation (mkEngine {} qpow) clock p m (some 0)).1.steps = 30
      ∧ resolveSteps (some 0) (({} : AppSettings).default_steps) = 30 := by
  refine ⟨?_, rfl, rfl⟩
  exact runLoop_length p clock 30 (mkEngine {} qpow) m m.current_price 0 0

/-- Claim C9: with the market and the old price held fixed, the competitive
penalty returned by `compute_reward` is strictly increasing in the new price
whenever it exceeds the competitor price; and with the market held fixed,
the stability penalty is strictly increasing in `|new_price - old_price|`. -/
theorem C9_penalty_monotonicity (qpow : ℚ → ℚ → ℚ) (s : AppSettings) (m : MarketState)
    (old n1 n2 : ℚ) :
    (m.competitor_price < n1 → n1 < n2 →
      (compute_reward qpow s old n1 m).p_competitive
        < (compute_reward qpow s old n2 m).p_competitive)
    ∧ (|n1 - old| < |n2 - old| →
      (compute_reward qpow s old n1 m).p_stability
        < (compute_reward qpow s old n2 m).p_stability) := by
  constructor
  · intro h1 h2
    show (max 0 (n1 - m.competitor_price) / max 1 m.competitor_price) ^ 2
        < (max 0 (n2 - m.competitor_price) / max 1 m.competitor_price) ^ 2
    have hd : (0 : ℚ) < max 1 m.competitor_price :=
      lt_of_lt_of_le one_pos (le_max_left _ _)
    rw [max_eq_right (by linarith : (0 : ℚ) ≤ n1 - m.competitor_price),
        max_eq_right (by linarith : (0 : ℚ) ≤ n2 - m.competitor_price)]
    have hlt : (n1 - m.competitor_price) / max 1 m.competitor_price
        < (n2 - m.competitor_price) / max 1 m.competitor_price :=
      (div_lt_div_iff_of_pos_right hd).mpr (by linarith)
    exact pow_lt_pow_left₀ hlt (div_nonneg (by linarith) hd.le) two_ne_zero
  · intro h
    show (|n1 - old| / max 1 old) ^ 2 < (|n2 - old| / max 1 old) ^ 2
    have hd : (0 : ℚ) < max 1 old := lt_of_lt_of_le one_pos (le_max_left _ _)
    have hlt : |n1 - old| / max 1 old < |n2 - old| / max 1 old :=
      (div_lt_div_iff_of_pos_right hd).mpr h
    exact pow_lt_pow_left₀ hlt (div_nonneg (abs_nonneg _) hd.le) two_ne_zero

/-- Witness for C9 at a concrete market (competitor price 11, old price 10,
new prices 12 and 13). -/
theorem C9_witness :
    ((compute_reward qpow0 {} 10 12 mktC).p_competitive
        < (compute_reward qpow0 {} 10 13 mktC).p_competitive)
      ∧ ((compute_reward qpow0 {} 10 12 mktC).p_stability
        < (compute_reward qpow0 {} 10 13 mktC).p_stability) := by
  have h := C9_penalty_monotonicity qpow0 {} mktC 10 12 13
  exact ⟨h.1 (by decide) (by norm_num), h.2 (by norm_num)⟩

/-! ### C4: reservoir sampling -/

/-- Helper: one ingestion-loop iteration grows a non-full reservoir by one
record and keeps a full reservoir at its size. -/
theorem reservoirUpdate_length (K : ℕ) (res : List Product) (x : Product) (j : ℕ) :
    (reservoirUpdate K res x j).length
      = if res.length < K then res.length + 1 else res.length := by
  unfold reservoirUpdate
  split
  · simp
  · split <;> simp

/-- Helper: the ingestion loop counts every row of the stream. -/
theorem runReservoirAux_count (K : ℕ) (rand : ℕ → ℕ) :
    ∀ (xs : List Product) (i : ℕ) (res : List Product),
      (runReservoirAux K rand xs i res).2 = i + xs.length := by
  intro xs
  induction xs with
  | nil => intro i res; simp [runReservoirAux]
  | cons x xs ih =>
    intro i res
    simp only [runReservoirAux, ih, List.length_cons]
    omega

/-- Helper: the reservoir size is the row count capped at the capacity. -/
theorem runReservoirAux_length (K : ℕ) (rand : ℕ → ℕ) :
    ∀ (xs : List Product) (i : ℕ) (res : List Product),
      res.length ≤ K →
      (runReservoirAux K rand xs i res).1.length = min (res.length + xs.length) K := by
  intro xs
  induction xs with
  | nil => intro i res h; simp [runReservoirAux, Nat.min_eq_left h]
  | cons x xs ih =>
    intro i res h
    have hred := reservoirUpdate_length K res x (rand i)
    by_cases hlt : res.length < K
    · rw [if_pos hlt] at hred
      simp only [runReservoirAux, ih _ _ (by omega : (reservoirUpdate K res x (rand i)).length ≤ K),
        hred, List.length_cons]
      omega
    · rw [if_neg hlt] at hred
      simp only [runReservoirAux, ih _ _ (by omega : (reservoirUpdate K res x (rand i)).length ≤ K),
        hred, List.length_cons]
      omega

/-- Helper: while the stream fits in the capacity, every record is kept, in
order. -/
theorem runReservoirAux_keep (K : ℕ) (rand : ℕ → ℕ) :
    ∀ (xs : List Product) (i : ℕ) (res : List Product),
      res.length + xs.length ≤ K →
      (runReservoirAux K rand xs i res).1 = res ++ xs := by
  intro xs
  induction xs with
  | nil => intro i res h; simp [runReservoirAux]
  | cons x xs ih =>
    intro i res h
    simp only [List.length_cons] at h
    have hlt : res.length < K := by omega
    simp only [runReservoirAux, reservoirUpdate, if_pos hlt]
    rw [ih _ _ (by simp; omega)]
    simp

/-- Claim C4: ingestion is algorithm R with capacity `MAX_PRODUCTS = 10000`:
the first `K` rows are all kept (a stream that fits within the capacity is
kept whole, in order); once the reservoir is full, slot `j` — the
`randint(0, i)` draw of the `i`-th row — is overwritten exactly when
`j < K`; the reported total equals the number of rows in the stream; and
the reservoir never holds more than `K` records. -/
theorem C4_reservoir_algorithm_r (K : ℕ) (rows : List Product) (rand : ℕ → ℕ) :
    MAX_PRODUCTS = 10000
      ∧ (runReservoir K rows rand).2 = rows.length
      ∧ (runReservoir K rows rand).1.length = min rows.length K
      ∧ (rows.length ≤ K → (runReservoir K rows rand).1 = rows)
      ∧ (∀ (res : List Product) (x : Product) (j : ℕ), res.length = K →
          reservoirUpdate K res x j = if j < K then res.set j x else res) := by
  refine ⟨rfl, ?_, ?_, ?_, ?_⟩
  · simpa using runReservoirAux_count K rand rows 0 []
  · simpa using runReservoirAux_length K rand rows 0 [] (by simp)
  · intro h
    simpa using runReservoirAux_keep K rand rows 0 [] (by simpa using h)
  · intro res x j h
    unfold reservoirUpdate
    rw [if_neg (by omega)]

/-- Witness for C4 at a concrete capacity, stream and full reservoir. -/
theorem C4_witness :
    (runReservoir 3 [prodC] rand0).2 = 1
      ∧ (runReservoir 3 [prodC] rand0).1 = [prodC]
      ∧ reservoirUpdate 3 [prodC, prodC, prodC] prodD 1 = [prodC, prodD, prodC] := by
  obtain ⟨-, h2, -, h4, h5⟩ := C4_reservoir_algorithm_r 3 [prodC] rand0
  refine ⟨by simpa using h2, h4 (by norm_num), ?_⟩
  rw [h5 [prodC, prodC, prodC] prodD 1 (by rfl)]
  decide

/-! ### C5 / C6: aggregate statistics -/

/-- Helper: one stats iteration bumps exactly the record's category bucket. -/
theorem statsStep_cat_counts (acc : StatsAcc) (p : Product) :
    (statsStep acc p).cat_counts = bumpCount acc.cat_counts p.category := by
  unfold statsStep
  split <;> rfl

/-- Helper: one stats iteration appends the price exactly when it is positive. -/
theorem statsStep_prices (acc : StatsAcc) (p : Product) :
    (statsStep acc p).prices
      = if 0 < p.price then acc.prices ++ [p.price] else acc.prices := by
  unfold statsStep
  split <;> simp_all

/-- Helper: a `get`-and-increment on the dict adds one to the value sum. -/
theorem bumpCount_sum (m : List (String × ℕ)) (c : String) :
    ((bumpCount m c).map (·.2)).sum = (m.map (·.2)).sum + 1 := by
  induction m with
  | nil => rfl
  | cons e rest ih =>
    obtain ⟨k, v⟩ := e
    by_cases h : k = c
    · simp [bumpCount, h]
      omega
    · simp [bumpCount, h, ih]
      omega

/-- Helper: after the stats sweep, the category counts sum to the number of
records swept. -/
theorem statsFold_counts_sum (l : List Product) :
    ∀ acc : StatsAcc,
      ((l.foldl statsStep acc).cat_counts.map (·.2)).sum
        = (acc.cat_counts.map (·.2)).sum + l.length := by
  induction l with
  | nil => intro acc; rfl
  | cons p rest ih =>
    intro acc
    simp only [List.foldl_cons, ih, List.length_cons]
    rw [statsStep_cat_counts, bumpCount_sum]
    omega

/-- Helper: after the stats sweep, the accumulated price list is exactly the
positive prices of the swept records, in record order. -/
theorem statsFold_prices (l : List Product) :
    ∀ acc : StatsAcc,
      (l.foldl statsStep acc).prices
        = acc.prices ++ (l.filter (fun p => decide (0 < p.price))).map (·.price) := by
  induction l with
  | nil => intro acc; simp
  | cons p rest ih =>
    intro acc
    simp only [List.foldl_cons, ih, statsStep_prices]
    by_cases h : 0 < p.price
    · simp [h]
    · simp [h]

/-- Helper: the spec's positive-price list is the loop's accumulated one. -/
theorem posPrices_eq (l : List Product) :
    posPrices l = (l.filter (fun p => decide (0 < p.price))).map (·.price) := by
  induction l with
  | nil => rfl
  | cons p rest ih =>
    by_cases h : 0 < p.price
    · simp [posPrices, List.filter_cons, h] at ih ⊢
      exact ih
    · simp [posPrices, List.filter_cons, h] at ih ⊢
      exact ih

/-- Helper: in a `(· ≤ ·)`-sorted rational list, values at lower indices are
no larger. -/
theorem sorted_getD_le (s : List ℚ) (hs : s.Sorted (· ≤ ·)) (i j : ℕ)
    (hij : i ≤ j) (hj : j < s.length) : s.getD i 0 ≤ s.getD j 0 := by
  have hi : i < s.length := lt_of_le_of_lt hij hj
  rw [List.getD_eq_getElem s 0 hi, List.getD_eq_getElem s 0 hj]
  have h2 : s.get ⟨i, hi⟩ ≤ s.get ⟨j, hj⟩ :=
    hs.rel_get_of_le (Fin.mk_le_mk.mpr hij)
  simpa using h2

/-- Helper: the snapshot's category counts sum to the record count. -/
theorem computeStats_counts_sum (sq : ℚ → ℚ) (res : List Product) (t : ℕ) :
    ((computeStats sq res t).category_counts.map (·.2)).sum = res.length := by
  have hperm : List.Perm
      (List.insertionSort (fun a b : String × ℕ => b.2 ≤ a.2)
        ((res.foldl statsStep {}).cat_counts))
      ((res.foldl statsStep {}).cat_counts) :=
    List.perm_insertionSort _ _
  have hsum := (hperm.map (·.2)).sum_eq
  show ((List.insertionSort (fun a b : String × ℕ => b.2 ≤ a.2)
      ((res.foldl statsStep {}).cat_counts)).map (·.2)).sum = res.length
  rw [hsum, statsFold_counts_sum]
  simp

/-- Helper: the snapshot's priced count is the number of positive-price
records. -/
theorem computeStats_priced (sq : ℚ → ℚ) (res : List Product) (t : ℕ) :
    (computeStats sq res t).priced_products
      = ((res.filter (fun p => decide (0 < p.price))).map (·.price)).length := by
  show ((res.foldl statsStep {}).prices).length = _
  rw [statsFold_prices]
  simp

/-- Helper: on a snapshot with at least one positive price,
`min_price ≤ median_price ≤ max_price`. -/
theorem computeStats_price_bounds (sq : ℚ → ℚ) (res : List Product) (t : ℕ)
    (h : ((res.foldl statsStep {}).prices).length ≠ 0) :
    (computeStats sq res t).min_price ≤ (computeStats sq res t).median_price
      ∧ (computeStats sq res t).median_price ≤ (computeStats sq res t).max_price := by
  have hlen : (List.insertionSort (· ≤ ·) ((res.foldl statsStep {}).prices)).length
      = ((res.foldl statsStep {}).prices).length :=
    List.length_insertionSort _ _
  have hsorted : (List.insertionSort (· ≤ ·) ((res.foldl statsStep {}).prices)).Sorted (· ≤ ·) :=
    List.sorted_insertionSort _ _
  have e1 : (computeStats sq res t).min_price
      = (List.insertionSort (· ≤ ·) ((res.foldl statsStep {}).prices)).getD 0 0 := by
    simp only [computeStats]
    rw [if_pos h]
  have e2 : (computeStats sq res t).median_price
      = (List.insertionSort (· ≤ ·) ((res.foldl statsStep {}).prices)).getD
          ((List.insertionSort (· ≤ ·) ((res.foldl statsStep {}).prices)).length / 2) 0 := by
    simp only [computeStats]
    rw [if_pos h]
  have e3 : (computeStats sq res t).max_price
      = (List.insertionSort (· ≤ ·) ((res.foldl statsStep {}).prices)).getD
          ((List.insertionSort (· ≤ ·) ((res.foldl statsStep {}).prices)).length - 1) 0 := by
    simp only [computeStats]
    rw [if_pos h]
  rw [e1, e2, e3]
  constructor
  · exact sorted_getD_le _ hsorted _ _ (Nat.zero_le _) (by omega)
  · exact sorted_getD_le _ hsorted _ _ (by omega) (by omega)

/-- Claim C5: every snapshot produced by ingestion satisfies the
aggregate-consistency invariant: category counts sum to `total_sampled`,
`total_sampled = len(records) ≤ capacity`, `total_seen ≥ total_sampled`,
`priced_count` is the number of sampled records with positive price, and
`min_price ≤ median_price ≤ max_price` whenever `priced_count > 0`. -/
theorem C5_snapshot_invariants (sq : ℚ → ℚ) (rows : List Product) (rand : ℕ → ℕ) :
    ((load_and_cache sq rows rand).category_counts.map (·.2)).sum
        = (load_and_cache sq rows rand).total_products
      ∧ (load_and_cache sq rows rand).total_products
        = (load_and_cache sq rows rand).products.length
      ∧ (load_and_cache sq rows rand).products.length ≤ MAX_PRODUCTS
      ∧ (load_and_cache sq rows rand).total_products ≤ (load_and_cache sq rows rand).total_in_csv
      ∧ (load_and_cache sq rows rand).priced_products
        = ((load_and_cache sq rows rand).products.filter (fun p => decide (0 < p.price))).length
      ∧ (0 < (load_and_cache sq rows rand).priced_products →
          (load_and_cache sq rows rand).min_price ≤ (load_and_cache sq rows rand).median_price
          ∧ (load_and_cache sq rows rand).median_price
            ≤ (load_and_cache sq rows rand).max_price) := by
  have hlen : (runReservoir MAX_PRODUCTS rows rand).1.length
      = min rows.length MAX_PRODUCTS := by
    simpa using runReservoirAux_length MAX_PRODUCTS rand rows 0 [] (by simp)
  have hcnt : (runReservoir MAX_PRODUCTS rows rand).2 = rows.length := by
    simpa using runReservoirAux_count MAX_PRODUCTS rand rows 0 []
  refine ⟨?_, rfl, ?_, ?_, ?_, ?_⟩
  · exact computeStats_counts_sum sq _ _
  · exact le_trans (le_of_eq hlen) (Nat.min_le_right _ _)
  · show (runReservoir MAX_PRODUCTS rows rand).1.length
        ≤ (runReservoir MAX_PRODUCTS rows rand).2
    rw [hlen, hcnt]
    exact Nat.min_le_left _ _
  · show (computeStats sq (runReservoir MAX_PRODUCTS rows rand).1
          (runReservoir MAX_PRODUCTS rows rand).2).priced_products
        = ((runReservoir MAX_PRODUCTS rows rand).1.filter
            (fun p => decide (0 < p.price))).length
    rw [computeStats_priced]
    simp
  · intro h6
    exact computeStats_price_bounds sq _ _ (Nat.pos_iff_ne_zero.mp h6)

/-- Witness for C5 on the spec's concrete three-row scenario. -/
theorem C5_witness :
    ((load_and_cache sq0 rowsC rand0).min_price ≤ (load_and_cache sq0 rowsC rand0).median_price
      ∧ (load_and_cache sq0 rowsC rand0).median_price
        ≤ (load_and_cache sq0 rowsC rand0).max_price)
    ∧ ((load_and_cache sq0 rowsC rand0).category_counts.map (·.2)).sum
        = (load_and_cache sq0 rowsC rand0).total_products := by
  have h := C5_snapshot_invariants sq0 rowsC rand0
  exact ⟨h.2.2.2.2.2 (by decide), h.1⟩

/-- Helper: the global price statistics of a snapshot are exactly the spec
formulas over the positive-price list of the sampled records. -/
theorem computeStats_spec_stats (sq : ℚ → ℚ) (res : List Product) (t : ℕ)
    (h : posPrices res ≠ []) :
    (computeStats sq res t).avg_price
        = (posPrices res).sum / ((posPrices res).length : ℚ)
      ∧ (computeStats sq res t).median_price = upperMedian (posPrices res)
      ∧ (computeStats sq res t).min_price
        = (List.insertionSort (· ≤ ·) (posPrices res)).getD 0 0
      ∧ (computeStats sq res t).max_price
        = (List.insertionSort (· ≤ ·) (posPrices res)).getD ((posPrices res).length - 1) 0
      ∧ (computeStats sq res t).std_price = sq (popVariance (posPrices res)) := by
  have hps : (res.foldl statsStep {}).prices = posPrices res := by
    rw [statsFold_prices, posPrices_eq]; simp
  have hne : ((res.foldl statsStep {}).prices).length ≠ 0 := by
    rw [hps]
    exact fun hc => h (List.length_eq_zero.mp hc)
  have hperm : List.Perm (List.insertionSort (· ≤ ·) (posPrices res)) (posPrices res) :=
    List.perm_insertionSort _ _
  have hlen : (List.insertionSort (· ≤ ·) (posPrices res)).length = (posPrices res).length :=
    List.length_insertionSort _ _
  have hsum : (List.insertionSort (· ≤ ·) (posPrices res)).sum = (posPrices res).sum :=
    hperm.sum_eq
  refine ⟨?_, ?_, ?_, ?_, ?_⟩
  · simp only [computeStats]
    rw [if_pos hne, hps, hsum, hlen]
  · simp only [computeStats]
    rw [if_pos hne, hps, hlen]
    rfl
  · simp only [computeStats]
    rw [if_pos hne, hps]
  · simp only [computeStats]
    rw [if_pos hne, hps, hlen]
  · simp only [computeStats]
    rw [if_pos hne, hps, hsum, hlen,
      (hperm.map (fun x => (x - (posPrices res).sum / ((posPrices res).length : ℚ)) ^ 2)).sum_eq]
    rfl

/-- Claim C6: price statistics are computed only over records with positive
price — records with `price ≤ 0` are still counted in `total_sampled` and
the category counts, but excluded from the price sum, min, max, median and
std: the average, minimum and maximum come from the sorted positive-price
list, the median is its `len // 2` element (upper median), and `std_price`
is the square root (`** 0.5`, modelled by `sq`) of the population variance
of the positive prices. -/
theorem C6_stats_over_positive_prices (sq : ℚ → ℚ) (rows : List Product) (rand : ℕ → ℕ) :
    (load_and_cache sq rows rand).total_products
        = (load_and_cache sq rows rand).products.length
      ∧ ((load_and_cache sq rows rand).category_counts.map (·.2)).sum
        = (load_and_cache sq rows rand).products.length
      ∧ (load_and_cache sq rows rand).priced_products
        = (posPrices (load_and_cache sq rows rand).products).length
      ∧ (posPrices (load_and_cache sq rows rand).products ≠ [] →
          (load_and_cache sq rows rand).avg_price
              = (posPrices (load_and_cache sq rows rand).products).sum
                / ((posPrices (load_and_cache sq rows rand).products).length : ℚ)
            ∧ (load_and_cache sq rows rand).median_price
              = upperMedian (posPrices (load_and_cache sq rows rand).products)
            ∧ (load_and_cache sq rows rand).min_price
              = (List.insertionSort (· ≤ ·)
                  (posPrices (load_and_cache sq rows rand).products)).getD 0 0
            ∧ (load_and_cache sq rows rand).max_price
              = (List.insertionSort (· ≤ ·)
                  (posPrices (load_and_cache sq rows rand).products)).getD
                  ((posPrices (load_and_cache sq rows rand).products).length - 1) 0
            ∧ (load_and_cache sq rows rand).std_price
              = sq (popVariance (posPrices (load_and_cache sq rows rand).products))) := by
  refine ⟨rfl, computeStats_counts_sum sq _ _, ?_, ?_⟩
  · show (computeStats sq (runReservoir MAX_PRODUCTS rows rand).1
          (runReservoir MAX_PRODUCTS rows rand).2).priced_products
        = (posPrices (runReservoir MAX_PRODUCTS rows rand).1).length
    rw [computeStats_priced, posPrices_eq]
  · intro h
    have hs := computeStats_spec_stats sq (runReservoir MAX_PRODUCTS rows rand).1
      (runReservoir MAX_PRODUCTS rows rand).2 h
    exact ⟨hs.1, hs.2.1, hs.2.2.1, hs.2.2.2.1, hs.2.2.2.2⟩

/-- Witness for C6 on the spec's concrete three-row scenario (positive
prices 10 and 25: upper median 25, population variance 225/4). -/
theorem C6_witness :
    (load_and_cache sq0 rowsC rand0).median_price
        = upperMedian (posPrices (load_and_cache sq0 rowsC rand0).products)
      ∧ (load_and_cache sq0 rowsC rand0).min_price
        = (List.insertionSort (· ≤ ·)
            (posPrices (load_and_cache sq0 rowsC rand0).products)).getD 0 0
      ∧ (load_and_cache sq0 rowsC rand0).max_price
        = (List.insertionSort (· ≤ ·)
            (posPrices (load_and_cache sq0 rowsC rand0).products)).getD
            ((posPrices (load_and_cache sq0 rowsC rand0).products).length - 1) 0
      ∧ (load_and_cache sq0 rowsC rand0).std_price
        = sq0 (popVariance (posPrices (load_and_cache sq0 rowsC rand0).products)) := by
  have h := C6_stats_over_positive_prices sq0 rowsC rand0
  have h4 := h.2.2.2 (by decide)
  exact ⟨h4.2.1, h4.2.2.1, h4.2.2.2.1, h4.2.2.2.2⟩

/-! ### C7: candidate search -/

/-- Helper: `find?` only depends on the predicate's values on the list. -/
theorem find?_congr_mem {α : Type} (l : List α) (p q : α → Bool)
    (h : ∀ a ∈ l, p a = q a) : l.find? p = l.find? q := by
  induction l with
  | nil => rfl
  | cons x xs ih =>
    have hx := h x (List.mem_cons_self x xs)
    by_cases hq : q x = true
    · rw [List.find?_cons_of_pos xs (hx.trans hq), List.find?_cons_of_pos xs hq]
    · have hp : ¬p x = true := by rw [hx]; exact hq
      rw [List.find?_cons_of_neg xs hp, List.find?_cons_of_neg xs hq]
      exact ih (fun a ha => h a (List.mem_cons_of_mem x ha))

/-- Helper: first-strict-improvement selection picks the first element whose
value is greater than or equal to every value in the list. -/
theorem firstMaxRec_eq_firstBest (f : ℚ → ℚ) (dflt : ℚ) :
    ∀ (xs : List ℚ) (b : ℚ),
      firstMaxRec f b xs
        = ((b :: xs).find? (fun c => (b :: xs).all (fun c2 => decide (f c2 ≤ f c)))).getD dflt := by
  intro xs
  induction xs with
  | nil =>
    intro b
    have hb : ([b].all fun c2 => decide (f c2 ≤ f b)) = true := by simp
    show b = (([b]).find? (fun c => [b].all (fun c2 => decide (f c2 ≤ f c)))).getD dflt
    rw [List.find?_cons, hb]
    rfl
  | cons x xs ih =>
    intro b
    by_cases hbx : f b < f x
    · have hL : firstMaxRec f b (x :: xs) = firstMaxRec f x xs := by
        simp [firstMaxRec, hbx]
      rw [hL, ih x]
      have hPb : ((b :: x :: xs).all fun c2 => decide (f c2 ≤ f b)) = false := by
        simp only [List.all_cons, Bool.and_eq_false_iff]
        exact Or.inr (Or.inl (decide_eq_false (not_le.mpr hbx)))
      nth_rewrite 2 [List.find?_cons]
      rw [hPb]
      congr 1
      apply find?_congr_mem
      intro a _
      rw [Bool.eq_iff_iff]
      simp only [List.all_cons, Bool.and_eq_true, decide_eq_true_eq]
      constructor
      · rintro ⟨h1, h2⟩
        exact ⟨le_trans hbx.le h1, h1, h2⟩
      · rintro ⟨-, h1, h2⟩
        exact ⟨h1, h2⟩
    · have hxb : f x ≤ f b := not_lt.mp hbx
      have hL : firstMaxRec f b (x :: xs) = firstMaxRec f b xs := by
        simp [firstMaxRec, hbx]
      rw [hL, ih b]
      have h1 : (b :: x :: xs).find? (fun c => (b :: x :: xs).all (fun c2 => decide (f c2 ≤ f c)))
          = (b :: x :: xs).find? (fun c => (b :: xs).all (fun c2 => decide (f c2 ≤ f c))) := by
        apply find?_congr_mem
        intro a _
        rw [Bool.eq_iff_iff]
        simp only [List.all_cons, Bool.and_eq_true, decide_eq_true_eq]
        constructor
        · rintro ⟨h1, -, h2⟩
          exact ⟨h1, h2⟩
        · rintro ⟨h1, h2⟩
          exact ⟨h1, le_trans hxb h1, h2⟩
      rw [h1]
      cases hGb : ((b :: xs).all fun c2 => decide (f c2 ≤ f b)) with
      | true => rw [List.find?_cons, List.find?_cons, hGb]
      | false =>
        have hGx : ((b :: xs).all fun c2 => decide (f c2 ≤ f x)) = false := by
          rcases lt_or_eq_of_le hxb with hlt | heq
          · simp only [List.all_cons, Bool.and_eq_false_iff]
            exact Or.inl (decide_eq_false (not_le.mpr hlt))
          · rw [heq]
            exact hGb
        rw [List.find?_cons, List.find?_cons, hGb, List.find?_cons, hGx]

/-- Helper: the search fold with a seeded best equals the recursive
first-strict-improvement selection. -/
theorem foldl_bestStep_some (f : ℚ → ℚ) :
    ∀ (xs : List ℚ) (b : ℚ),
      (xs.foldl (bestStep f) (b, some (f b))).1 = firstMaxRec f b xs := by
  intro xs
  induction xs with
  | nil => intro b; rfl
  | cons x xs ih =>
    intro b
    by_cases h : f b < f x
    · have hstep : bestStep f (b, some (f b)) x = (x, some (f x)) := by
        simp [bestStep, h]
      rw [List.foldl_cons, hstep, ih x]
      simp [firstMaxRec, h]
    · have hstep : bestStep f (b, some (f b)) x = (b, some (f b)) := by
        simp [bestStep, h]
      rw [List.foldl_cons, hstep, ih b]
      simp [firstMaxRec, h]

/-- Helper: the full search fold (starting from the `-inf` sentinel) equals
the first element attaining the maximum value. -/
theorem suggest_fold_eq_firstBest (f : ℚ → ℚ) (base dflt : ℚ) (l : List ℚ) (h : l ≠ []) :
    (l.foldl (bestStep f) (base, none)).1
      = (l.find? (fun c => l.all (fun c2 => decide (f c2 ≤ f c)))).getD dflt := by
  obtain ⟨x, xs, rfl⟩ := List.exists_cons_of_ne_nil h
  have h0 : bestStep f (base, none) x = (x, some (f x)) := rfl
  rw [List.foldl_cons, h0, foldl_bestStep_some f xs x, firstMaxRec_eq_firstBest f dflt xs x]

/-- Claim C7: `suggest_price` evaluates exactly the ten fixed candidates,
each floored at 0.01 and rounded to 2 decimals before scoring with
`compute_reward` (candidate as new price, base as old price), and returns
the candidate with the strictly highest total reward, ties broken by first
position in the fixed candidate list; it is a pure function of product,
market and settings, consuming no randomness. -/
theorem C7_suggest_price_first_argmax (qpow : ℚ → ℚ → ℚ) (s : AppSettings)
    (p : Product) (m : MarketState) :
    suggest_price qpow s p m = spec_suggest_price qpow s p m
      ∧ (candidates s m).length = 10 := by
  constructor
  · have h := suggest_fold_eq_firstBest
      (fun cp => (compute_reward qpow s m.current_price cp m).total)
      m.current_price m.current_price
      ((candidates s m).map procCandidate)
      (by simp [candidates])
    exact congrArg pyRound2 h
  · rfl

/-! ### C10: totality and lower bound of the candidate search -/

/-- Helper: rounding is monotone on ℚ. -/
theorem round_mono_q {x y : ℚ} (h : x ≤ y) : round x ≤ round y := by
  rw [round_eq, round_eq]
  exact Int.floor_le_floor (by linarith)

/-- Helper: first-strict-improvement selection picks an element of the
candidate pool (seed included). -/
theorem firstMaxRec_mem (f : ℚ → ℚ) : ∀ (xs : List ℚ) (b : ℚ), firstMaxRec f b xs ∈ b :: xs := by
  intro xs
  induction xs with
  | nil => intro b; simp [firstMaxRec]
  | cons x xs ih =>
    intro b
    by_cases h : f b < f x
    · have hm := ih x
      simp only [firstMaxRec, if_pos h]
      rcases List.mem_cons.mp hm with h1 | h1
      · exact List.mem_cons.mpr (Or.inr (List.mem_cons.mpr (Or.inl h1)))
      · exact List.mem_cons.mpr (Or.inr (List.mem_cons.mpr (Or.inr h1)))
    · have hm := ih b
      simp only [firstMaxRec, if_neg h]
      rcases List.mem_cons.mp hm with h1 | h1
      · exact List.mem_cons.mpr (Or.inl h1)
      · exact List.mem_cons.mpr (Or.inr (List.mem_cons.mpr (Or.inr h1)))

/-- Helper: the search fold returns an element of the candidate list. -/
theorem foldl_bestStep_mem (f : ℚ → ℚ) (base : ℚ) (x : ℚ) (xs : List ℚ) :
    ((x :: xs).foldl (bestStep f) (base, none)).1 ∈ x :: xs := by
  have h0 : bestStep f (base, none) x = (x, some (f x)) := rfl
  rw [List.foldl_cons, h0, foldl_bestStep_some f xs x]
  exact firstMaxRec_mem f xs x

/-- Helper: processed candidates are at least 0.01 and are fixed points of
the final 2-decimal rounding. -/
theorem procCandidate_bounds (c : ℚ) :
    (1/100 : ℚ) ≤ procCandidate c ∧ pyRound2 (procCandidate c) = procCandidate c := by
  constructor
  · show (1/100 : ℚ) ≤ pyRound2 (max 0.01 c)
    unfold pyRound2
    have h1 : (1 : ℚ) ≤ (max 0.01 c) * 100 := by
      have hm : (0.01 : ℚ) ≤ max 0.01 c := le_max_left _ _
      linarith
    have h2 : (1 : ℤ) ≤ round ((max 0.01 c) * 100) := by
      calc (1 : ℤ) = round (1 : ℚ) := round_one.symm
        _ ≤ round ((max 0.01 c) * 100) := round_mono_q h1
    have h3 : ((1 : ℤ) : ℚ) ≤ ((round ((max 0.01 c) * 100) : ℤ) : ℚ) := Int.cast_le.mpr h2
    have h4 := (div_le_div_iff_of_pos_right (by norm_num : (0 : ℚ) < 100)).mpr h3
    simpa using h4
  · show pyRound2 (pyRound2 (max 0.01 c)) = pyRound2 (max 0.01 c)
    unfold pyRound2
    rw [div_mul_cancel₀ _ (by norm_num : (100 : ℚ) ≠ 0), round_intCast]

/-- Claim C10: for every product and market state with a positive current
price, `suggest_price` is total (a Lean function) and returns one of the
floored-and-rounded candidates, hence a price of at least 0.01; and the
demand function returns 0 whenever either price is non-positive (instead of
attempting the fractional power). -/
theorem C10_suggest_price_safe (qpow : ℚ → ℚ → ℚ) (s : AppSettings) (p : Product)
    (m : MarketState) (h : 0 < m.current_price) :
    (1/100 : ℚ) ≤ suggest_price qpow s p m
      ∧ suggest_price qpow s p m ∈ (candidates s m).map procCandidate
      ∧ (∀ price bp el se en : ℚ, bp ≤ 0 ∨ price ≤ 0 →
          demand_function qpow price bp el se en = 0) := by
  obtain ⟨x, xs, hxx⟩ := List.exists_cons_of_ne_nil
    (show (candidates s m).map procCandidate ≠ [] from by simp [candidates])
  have hin : (((candidates s m).map procCandidate).foldl
      (bestStep (fun cp => (compute_reward qpow s m.current_price cp m).total))
      (m.current_price, none)).1 ∈ (candidates s m).map procCandidate := by
    rw [hxx]
    exact foldl_bestStep_mem _ _ x xs
  obtain ⟨c, -, hc⟩ := List.mem_map.mp hin
  have hb := procCandidate_bounds c
  refine ⟨?_, ?_, ?_⟩
  · show (1/100 : ℚ) ≤ pyRound2 (((candidates s m).map procCandidate).foldl
        (bestStep (fun cp => (compute_reward qpow s m.current_price cp m).total))
        (m.current_price, none)).1
    rw [← hc, hb.2]
    exact hb.1
  · show pyRound2 (((candidates s m).map procCandidate).foldl
        (bestStep (fun cp => (compute_reward qpow s m.current_price cp m).total))
        (m.current_price, none)).1 ∈ (candidates s m).map procCandidate
    rw [← hc, hb.2, hc]
    exact hin
  · intro price bp el se en hle
    unfold demand_function
    rw [if_pos hle]

/-- Witness for C10 at a concrete market with positive current price and a
concrete non-positive demand query. -/
theorem C10_witness :
    ((1/100 : ℚ) ≤ suggest_price qpow0 {} prodC mktC)
      ∧ demand_function qpow0 (-1) 5 1 1 1 = 0 := by
  have h := C10_suggest_price_safe qpow0 {} prodC mktC (by norm_num [mktC])
  exact ⟨h.1, h.2.2 (-1) 5 1 1 1 (Or.inr (by norm_num))⟩

/-! ### C2: rollout reproducibility -/

/-- Helper: replacing only the timestamp keeps `product_id`. -/
theorem mset_pid (m : MarketState) (t : String) :
    ({ m with timestamp := t }).product_id = m.product_id := rfl

/-- Helper: replacing only the timestamp keeps `current_price`. -/
theorem mset_cur (m : MarketState) (t : String) :
    ({ m with timestamp := t }).current_price = m.current_price := rfl

/-- Helper: replacing only the timestamp keeps `competitor_price`. -/
theorem mset_comp (m : MarketState) (t : String) :
    ({ m with timestamp := t }).competitor_price = m.competitor_price := rfl

/-- Helper: replacing only the timestamp keeps `inventory_level`. -/
theorem mset_inv (m : MarketState) (t : String) :
    ({ m with timestamp := t }).inventory_level = m.inventory_level := rfl

/-- Helper: replacing only the timestamp keeps `user_engagement`. -/
theorem mset_eng (m : MarketState) (t : String) :
    ({ m with timestamp := t }).user_engagement = m.user_engagement := rfl

/-- Helper: replacing only the timestamp keeps `seasonal_factor`. -/
theorem mset_seas (m : MarketState) (t : String) :
    ({ m with timestamp := t }).seasonal_factor = m.seasonal_factor := rfl

/-- Helper: replacing only the timestamp keeps `demand_elasticity`. -/
theorem mset_elast (m : MarketState) (t : String) :
    ({ m with timestamp := t }).demand_elasticity = m.demand_elasticity := rfl

/-- Helper: the reward computation never reads the market timestamp. -/
theorem compute_reward_ts_irrel (qpow : ℚ → ℚ → ℚ) (s : AppSettings) (o n : ℚ)
    (m : MarketState) (t : String) :
    compute_reward qpow s o n { m with timestamp := t } = compute_reward qpow s o n m := by
  unfold compute_reward
  simp only [mset_cur, mset_comp, mset_inv, mset_eng, mset_seas, mset_elast]

/-- Helper: the candidate list never reads the market timestamp. -/
theorem candidates_ts_irrel (s : AppSettings) (m : MarketState) (t : String) :
    candidates s { m with timestamp := t } = candidates s m := by
  unfold candidates
  simp only [mset_cur, mset_comp]

/-- Helper: the candidate search never reads the market timestamp. -/
theorem suggest_price_ts_irrel (qpow : ℚ → ℚ → ℚ) (s : AppSettings) (p : Product)
    (m : MarketState) (t : String) :
    suggest_price qpow s p { m with timestamp := t } = suggest_price qpow s p m := by
  unfold suggest_price
  simp only [mset_cur, candidates_ts_irrel, compute_reward_ts_irrel]

/-- Helper: a simulation step never reads the incoming market timestamp. -/
theorem simulate_step_ts_irrel (e : Engine) (p : Product) (m : MarketState)
    (t tA tM : String) (old : ℚ) :
    simulate_step e p { m with timestamp := t } old tA tM = simulate_step e p m old tA tM := by
  unfold simulate_step
  simp only [mset_pid, mset_cur, mset_comp, mset_inv, mset_eng, mset_seas, mset_elast,
    suggest_price_ts_irrel, compute_reward_ts_irrel]

set_option maxRecDepth 100000 in
/-- Helper: two step calls differing only in the observed clock values
produce the same action up to its timestamp. -/
theorem sstep_act (e : Engine) (p : Product) (m : MarketState) (tA tM tA2 tM2 : String) (old : ℚ) :
    (simulate_step e p m old tA tM).1
      = { (simulate_step e p m old tA2 tM2).1 with timestamp := tA } := by
  simp only [simulate_step]

set_option maxRecDepth 100000 in
/-- Helper: two step calls differing only in the observed clock values
produce the same next market up to its timestamp. -/
theorem sstep_mkt (e : Engine) (p : Product) (m : MarketState) (tA tM tA2 tM2 : String) (old : ℚ) :
    (simulate_step e p m old tA tM).2.1
      = { (simulate_step e p m old tA2 tM2).2.1 with timestamp := tM } := by
  simp only [simulate_step]

set_option maxRecDepth 100000 in
/-- Helper: the engine after a step does not depend on the observed clock. -/
theorem sstep_eng (e : Engine) (p : Product) (m : MarketState) (tA tM tA2 tM2 : String) (old : ℚ) :
    (simulate_step e p m old tA tM).2.2 = (simulate_step e p m old tA2 tM2).2.2 := by
  simp only [simulate_step]

/-- Helper: the whole step loop, run under two different ambient clocks (and
markets differing only in their timestamp), produces the same actions up to
action timestamps, the same final price and the same final engine state. -/
theorem runLoop_clock_strip (p : Product) (c1 c2 : ℕ → String) :
    ∀ (n : ℕ) (e : Engine) (m : MarketState) (t : String) (price : ℚ) (si ci : ℕ),
      ((runLoop p c1 n e m price si ci).actions.map stripAction
          = (runLoop p c2 n e { m with timestamp := t } price si ci).actions.map stripAction)
        ∧ (runLoop p c1 n e m price si ci).current_price
          = (runLoop p c2 n e { m with timestamp := t } price si ci).current_price
        ∧ (runLoop p c1 n e m price si ci).engine
          = (runLoop p c2 n e { m with timestamp := t } price si ci).engine := by
  intro n
  induction n with
  | zero => intro e m t price si ci; exact ⟨rfl, rfl, rfl⟩
  | succ k ih =>
    intro e m t price si ci
    simp only [runLoop]
    rw [simulate_step_ts_irrel e p m t (c2 ci) (c2 (ci+1)) price]
    rw [sstep_act e p m (c2 ci) (c2 (ci+1)) (c1 ci) (c1 (ci+1)) price,
      sstep_mkt e p m (c2 ci) (c2 (ci+1)) (c1 ci) (c1 (ci+1)) price,
      sstep_eng e p m (c2 ci) (c2 (ci+1)) (c1 ci) (c1 (ci+1)) price]
    simp only [stripAction, List.map_cons]
    obtain ⟨ia, ip, ie⟩ := ih (simulate_step e p m price (c1 ci) (c1 (ci+1))).2.2
      (simulate_step e p m price (c1 ci) (c1 (ci+1))).2.1 (c2 (ci+1))
      ((simulate_step e p m price (c1 ci) (c1 (ci+1))).1.new_price) (si+1) (ci+2)
    refine ⟨?_, ?_, ?_⟩
    · rw [ia]
    · exact ip
    · exact ie

/-- Helper: `runLoop_clock_strip` specialised to one and the same initial
market on both sides. -/
theorem runLoop_clock_strip_same (p : Product) (c1 c2 : ℕ → String) (n : ℕ) (e : Engine)
    (m : MarketState) (price : ℚ) (si ci : ℕ) :
    ((runLoop p c1 n e m price si ci).actions.map stripAction
        = (runLoop p c2 n e m price si ci).actions.map stripAction)
      ∧ (runLoop p c1 n e m price si ci).current_price
        = (runLoop p c2 n e m price si ci).current_price
      ∧ (runLoop p c1 n e m price si ci).engine
        = (runLoop p c2 n e m price si ci).engine := by
  have h := runLoop_clock_strip p c1 c2 n e m m.timestamp price si ci
  simpa using h

/-- Helper: field-wise extensionality for simulation results. -/
theorem simres_ext {r1 r2 : SimulationResult}
    (h1 : r1.product_id = r2.product_id) (h2 : r1.product_name = r2.product_name)
    (h3 : r1.actions = r2.actions) (h4 : r1.total_reward = r2.total_reward)
    (h5 : r1.avg_reward = r2.avg_reward) (h6 : r1.final_price = r2.final_price)
    (h7 : r1.initial_price = r2.initial_price) (h8 : r1.max_price = r2.max_price)
    (h9 : r1.min_price = r2.min_price) (h10 : r1.steps = r2.steps) : r1 = r2 := by
  cases r1; cases r2; simp_all

/-- Helper: any timestamp-blind projection of actions agrees across runs
whose stripped action lists agree. -/
theorem map_strip_field {α : Type} (g : PricingAction → α) (hg : ∀ a, g (stripAction a) = g a)
    (l1 l2 : List PricingAction) (hl : l1.map stripAction = l2.map stripAction) :
    l1.map g = l2.map g := by
  have h := congrArg (List.map g) hl
  rw [List.map_map, List.map_map] at h
  rw [Function.comp_def] at h
  rw [funext hg] at h
  exact h

/-- Helper: equal lengths give equal emptiness flags. -/
theorem isEmpty_eq_of_length_eq {l1 l2 : List PricingAction} (h : l1.length = l2.length) :
    l1.isEmpty = l2.isEmpty := by
  cases l1 <;> cases l2 <;> simp_all

/-- Helper: the average-reward expression agrees across runs whose stripped
action lists agree. -/
theorem avg_eq_helper (l1 l2 : List PricingAction)
    (hl : l1.map stripAction = l2.map stripAction) :
    (if l1.isEmpty then (0:ℚ) else (l1.map (fun a => a.reward)).sum / (l1.length : ℚ))
      = (if l2.isEmpty then (0:ℚ) else (l2.map (fun a => a.reward)).sum / (l2.length : ℚ)) := by
  have hrew := map_strip_field (fun a => a.reward) (fun a => rfl) l1 l2 hl
  have hlen : l1.length = l2.length := by simpa using congrArg List.length hl
  rw [isEmpty_eq_of_length_eq hlen, hrew, hlen]

/-- Claim C2, counterexample: the very same engine (fixed seed 42, default
settings), run twice on the same product, market and step count but under
two different wall clocks, does NOT produce byte-identical
`SimulationResult`s — the `PricingAction.timestamp` fields are
`datetime.now()` values and differ between the runs. -/
theorem C2_counterexample :
    (run_simulation (mkEngine {} qpow0) clockA prodC mktC (some 1)).1
      ≠ (run_simulation (mkEngine {} qpow0) clockB prodC mktC (some 1)).1 := by
  intro hEq
  have h := congrArg (fun r => r.actions.map (fun a => a.timestamp)) hEq
  have h1 : ((run_simulation (mkEngine {} qpow0) clockA prodC mktC (some 1)).1.actions.map
      (fun a => a.timestamp)) = ["2024-01-01T00:00:00"] := rfl
  have h2 : ((run_simulation (mkEngine {} qpow0) clockB prodC mktC (some 1)).1.actions.map
      (fun a => a.timestamp)) = ["2024-01-02T00:00:00"] := rfl
  simp only [h1, h2] at h
  exact absurd h (by decide)

/-- Claim C2 as amended: two runs of the same engine (hence the same seed
and settings) on the same product, initial market and step count produce
traces that are identical in every field EXCEPT the wall-clock
`timestamp` of each `PricingAction`: erasing those timestamps the
`SimulationResult`s are equal, and the final engine states are equal. -/
theorem C2_reproducible_up_to_timestamps (e : Engine) (c1 c2 : ℕ → String) (p : Product)
    (m : MarketState) (steps? : Option ℕ) :
    stripResult (run_simulation e c1 p m steps?).1
        = stripResult (run_simulation e c2 p m steps?).1
      ∧ (run_simulation e c1 p m steps?).2 = (run_simulation e c2 p m steps?).2 := by
  obtain ⟨ha, hp, he⟩ := runLoop_clock_strip_same p c1 c2
    (resolveSteps steps? e.settings.default_steps) e m m.current_price 0 0
  have hnp := map_strip_field (fun a => a.new_price) (fun a => rfl) _ _ ha
  have hrew := map_strip_field (fun a => a.reward) (fun a => rfl) _ _ ha
  constructor
  · refine simres_ext rfl rfl ?_ ?_ ?_ ?_ rfl ?_ ?_ rfl
    · exact ha
    · exact congrArg pyRound4 (congrArg List.sum hrew)
    · exact congrArg pyRound4 (avg_eq_helper _ _ ha)
    · exact congrArg pyRound2 hp
    · exact congrArg (fun l => pyRound2 (pyMax (m.current_price :: l))) hnp
    · exact congrArg (fun l => pyRound2 (pyMin (m.current_price :: l))) hnp
  · exact he

end Warehouse
